import Mathlib

/-!
Verification of the correction-merging subsystem of the english-assistant
backend (`src/backend/agents/correction_agent.py`, class `CorrectionAgent`).

Texts are modelled as `List Char`; Python string slicing `s[a:b]` (which
clamps out-of-range indices for non-negative `a`, `b`) is `(s.drop a).take
(b - a)`.  Python dictionaries produced by the agent are modelled as
structures.  Python's stable in-place `list.sort(key=...)` is modelled by
`List.insertionSort`, which is also stable, on the same key.  Float
arithmetic on the small confidence constants is modelled over `ℚ`.
-/

namespace CorrectionAgent

/-- Span of a correction: the `position` dict `{"start": ..., "end": ...}`,
a half-open character interval into the original text.  The Python key
`end` is a Lean keyword, so the field is named `stop`. -/
structure Position where
  start : Nat
  stop : Nat
deriving DecidableEq, Repr

/-- A correction dict as built by `_correct_with_languagetool` and
`_merge_corrections`. -/
structure Correction where
  original : List Char
  corrected : List Char
  error_type : String
  rule_explanation : String
  position : Position
  confidence : ℚ
  source : String
deriving DecidableEq, Repr

/-- A difference dict as built by `_find_text_differences` (it carries only
`original`, `corrected` and `position`). -/
structure Diff where
  original : List Char
  corrected : List Char
  position : Position
deriving DecidableEq, Repr

/-- A LanguageTool match, per the collaborator contract in the spec:
`Match{offset, errorLength, replacements, ruleId, category, message}`. -/
structure Match where
  offset : Nat
  errorLength : Nat
  replacements : List (List Char)
  ruleId : String
  category : String
  message : String
deriving DecidableEq, Repr

/-- Python slice `s[a:b]` for non-negative indices (clamping, never
raising). -/
def py_slice (s : List Char) (a b : Nat) : List Char :=
  (s.drop a).take (b - a)

/-- Accumulator-based whitespace splitter; `acc` holds the current word
reversed. -/
def words_aux : List Char → List Char → List (List Char)
  | [], acc => if acc.isEmpty then [] else [acc.reverse]
  | c :: cs, acc =>
    if c.isWhitespace then
      if acc.isEmpty then words_aux cs [] else acc.reverse :: words_aux cs []
    else words_aux cs (c :: acc)

/-- Python `str.split()` with no argument: split on runs of whitespace,
discarding empty fields. -/
def str_split (s : List Char) : List (List Char) :=
  words_aux s []

/-- Python `sep.join(ws)`. -/
def join_sep (sep : List Char) : List (List Char) → List Char
  | [] => []
  | [w] => w
  | w :: ws => w ++ sep ++ join_sep sep ws

/-- `_find_text_differences`: position-aligned token walk over the two
whitespace-tokenized strings, up to the shorter length; each index with
differing tokens yields a candidate whose span start is the joined length
of the preceding original tokens plus one separating space when `i > 0`. -/
def find_text_differences (original corrected : List Char) : List Diff :=
  let original_words := str_split original
  let corrected_words := str_split corrected
  let min_len := min original_words.length corrected_words.length
  (List.range min_len).filterMap fun i =>
    let ow := original_words.getD i []
    let cw := corrected_words.getD i []
    if ow ≠ cw then
      let position_start :=
        (join_sep [' '] (original_words.take i)).length + (if 0 < i then 1 else 0)
      some ⟨ow, cw, ⟨position_start, position_start + ow.length⟩⟩
    else none

/-- `_has_overlapping_correction`: the candidate overlaps some already
accepted correction (`new_start < existing_end and new_end >
existing_start`). -/
def has_overlapping_correction (new_correction : Diff)
    (existing_corrections : List Correction) : Bool :=
  existing_corrections.any fun existing =>
    decide (new_correction.position.start < existing.position.stop) &&
    decide (new_correction.position.stop > existing.position.start)

/-- The correction dict `_merge_corrections` builds from an accepted T5
diff: `error_type "grammar"`, fixed explanation, confidence `0.7`, source
`"t5"`. -/
def diff_to_correction (d : Diff) : Correction :=
  { original := d.original
    corrected := d.corrected
    error_type := "grammar"
    rule_explanation := "Grammar improvement suggested by AI model"
    position := d.position
    confidence := 0.7
    source := "t5" }

/-- The `for diff in t5_diffs` loop of `_merge_corrections`: each candidate
is tested against the list accumulated so far (LanguageTool corrections
plus previously accepted candidates) and appended when no overlap is
found. -/
def merge_t5_loop (merged : List Correction) (diffs : List Diff) : List Correction :=
  diffs.foldl
    (fun acc d =>
      if has_overlapping_correction d acc then acc else acc ++ [diff_to_correction d])
    merged

/-- Ascending sort by `position.start`, modelling the stable
`merged_corrections.sort(key=lambda x: x["position"]["start"])`. -/
def sort_by_start (corrections : List Correction) : List Correction :=
  corrections.insertionSort fun a b => a.position.start ≤ b.position.start

/-- `_merge_corrections`: seed with the LanguageTool corrections, add
non-overlapping T5 diff candidates when the T5 output differs from the
original, then sort by span start. -/
def merge_corrections (original_text t5_corrected : List Char)
    (lt_corrections : List Correction) : List Correction :=
  sort_by_start
    (if t5_corrected ≠ original_text then
      merge_t5_loop lt_corrections (find_text_differences original_text t5_corrected)
     else lt_corrections)

/-- One splice step of `_apply_corrections`:
`corrected_text[:start] + replacement + corrected_text[end:]`. -/
def splice (t : List Char) (c : Correction) : List Char :=
  t.take c.position.start ++ c.corrected ++ t.drop c.position.stop

/-- Descending sort by `position.start`, modelling the stable
`sorted(corrections, key=lambda x: x["position"]["start"], reverse=True)`. -/
def sort_desc_by_start (corrections : List Correction) : List Correction :=
  corrections.insertionSort fun a b => b.position.start ≤ a.position.start

/-- `_apply_corrections`: splice the corrections into the text in
descending span-start order. -/
def apply_corrections (text : List Char) (corrections : List Correction) : List Char :=
  if corrections.isEmpty then text
  else (sort_desc_by_start corrections).foldl splice text

/-- Char-list prefix test, used as the primitive for the Python substring
operator `in`. -/
def starts_with : List Char → List Char → Bool
  | [], _ => true
  | _ :: _, [] => false
  | p :: ps, h :: hs => p == h && starts_with ps hs

/-- Python substring containment `pat in hay`. -/
def contains_sub (pat : List Char) : List Char → Bool
  | [] => starts_with pat []
  | c :: rest => starts_with pat (c :: rest) || contains_sub pat rest

/-- `_categorize_error_type`: ordered case-insensitive substring checks on
the rule id and category, first match wins, default `"grammar"`. -/
def categorize_error_type (rule_id category : String) : String :=
  let rule_id_lower := rule_id.toLower.toList
  let category_lower := category.toLower.toList
  if contains_sub "spell".toList rule_id_lower || contains_sub "spell".toList category_lower then
    "spelling"
  else if contains_sub "grammar".toList category_lower ||
      contains_sub "agreement".toList rule_id_lower then
    "grammar"
  else if contains_sub "punct".toList rule_id_lower ||
      contains_sub "punct".toList category_lower then
    "punctuation"
  else if contains_sub "capital".toList rule_id_lower ||
      contains_sub "capital".toList category_lower then
    "capitalization"
  else if contains_sub "article".toList rule_id_lower then
    "article_usage"
  else if contains_sub "preposition".toList rule_id_lower then
    "preposition_usage"
  else if contains_sub "tense".toList rule_id_lower then
    "verb_tense"
  else
    "grammar"

/-- `_calculate_match_confidence`: base `0.8`, category override, then the
suggestion-count adjustment, finally `min(1.0, max(0.1, confidence))`. -/
def calculate_match_confidence (m : Match) : ℚ :=
  let confidence : ℚ := 0.8
  let confidence : ℚ :=
    if m.category = "GRAMMAR" then 0.9
    else if m.category = "TYPOS" then 0.95
    else if m.category = "STYLE" then 0.6
    else confidence
  let confidence : ℚ :=
    if m.replacements.isEmpty then confidence
    else if m.replacements.length = 1 then confidence + 0.1
    else if m.replacements.length > 3 then confidence - 0.1
    else confidence
  min 1.0 (max 0.1 confidence)

/-- The correction dict `_correct_with_languagetool` builds from one match:
`original` is the (clamping) slice `text[offset : offset+errorLength]`,
`corrected` the first replacement or `""`. -/
def match_to_correction (text : List Char) (m : Match) : Correction :=
  { original := py_slice text m.offset (m.offset + m.errorLength)
    corrected := m.replacements.headD []
    error_type := categorize_error_type m.ruleId m.category
    rule_explanation := m.message
    position := ⟨m.offset, m.offset + m.errorLength⟩
    confidence := calculate_match_confidence m
    source := "languagetool" }

/-- `_correct_with_languagetool`: one correction dict per match, in match
order; no match is ever skipped.  (The Python parameter `matches` is a
reserved word in Lean, hence `ms`.) -/
def correct_with_languagetool (text : List Char) (ms : List Match) : List Correction :=
  ms.map (match_to_correction text)

/-- The static `self.grammar_rules` lookup table (ten entries). -/
def grammar_rules : String → Option String := fun error_type =>
  if error_type = "subject_verb_agreement" then some "Subject and verb must agree in number"
  else if error_type = "article_usage" then some "Correct usage of articles (a, an, the)"
  else if error_type = "preposition_usage" then some "Proper preposition selection"
  else if error_type = "verb_tense" then some "Correct verb tense usage"
  else if error_type = "punctuation" then some "Proper punctuation marks"
  else if error_type = "capitalization" then some "Correct capitalization rules"
  else if error_type = "spelling" then some "Correct spelling of words"
  else if error_type = "word_order" then some "Proper word order in sentences"
  else if error_type = "plural_singular" then some "Correct plural and singular forms"
  else if error_type = "pronoun_usage" then some "Proper pronoun usage and agreement"
  else none

/-- Deterministic model of Python `set.add`: insertion-ordered set. -/
def add_unique (acc : List String) (s : String) : List String :=
  if s ∈ acc then acc else acc ++ [s]

/-- Loop body of `_extract_grammar_rules`: add the static table
description of the correction's `error_type` when mapped, then its
`rule_explanation` when non-empty and shorter than 100 characters. -/
def extract_step (acc : List String) (c : Correction) : List String :=
  let acc :=
    match grammar_rules c.error_type with
    | some r => add_unique acc r
    | none => acc
  if c.rule_explanation ≠ "" ∧ c.rule_explanation.length < 100 then
    add_unique acc c.rule_explanation
  else acc

/-- `_extract_grammar_rules`: for each correction, add the static table
description of its `error_type` when mapped, and its `rule_explanation`
when non-empty and shorter than 100 characters; deduplicate (Python uses a
`set`, so only membership in the result is meaningful). -/
def extract_grammar_rules (corrections : List Correction) : List String :=
  corrections.foldl extract_step []

/-- The example format `f"'{original}' → '{corrected}'"`. -/
def format_example (c : Correction) : List Char :=
  "'".toList ++ c.original ++ "' → '".toList ++ c.corrected ++ "'".toList

/-- The acceptance test inside `_generate_correction_examples`:
`if original and corrected and original != corrected`. -/
def example_ok (c : Correction) : Bool :=
  !c.original.isEmpty && !c.corrected.isEmpty && c.original != c.corrected

/-- `_generate_correction_examples`: walk only `corrections[:3]` and format
those passing the acceptance test. -/
def generate_correction_examples (corrections : List Correction) : List (List Char) :=
  (corrections.take 3).foldl
    (fun acc c => if example_ok c then acc ++ [format_example c] else acc)
    []

/-- `_calculate_confidence_score`: `1.0` on the empty list, else the mean
of the corrections' confidences. -/
def calculate_confidence_score (corrections : List Correction) : ℚ :=
  if corrections.isEmpty then 1.0
  else ((corrections.map fun c => c.confidence).sum) / corrections.length

/-! ### Concrete inputs used by counterexamples and witnesses -/

/-- A LanguageTool match whose span `[1, 6)` exceeds the bounds of the
three-character text it is checked against. -/
def oob_match : Match := ⟨1, 5, ["X".toList], "ID", "CAT", "msg"⟩

/-- Merged-list edit with confidence `0.8`, for the averaging scenario. -/
def score_edit_a : Correction :=
  ⟨"a".toList, "b".toList, "grammar", "", ⟨0, 1⟩, 0.8, "languagetool"⟩

/-- Merged-list edit with confidence `0.6`, for the averaging scenario. -/
def score_edit_b : Correction :=
  ⟨"c".toList, "d".toList, "grammar", "", ⟨2, 3⟩, 0.6, "languagetool"⟩

/-- Edit with empty `original` and differing `corrected`: `_generate_correction_examples`
skips it although its original differs from its corrected. -/
def ex_edit_0 : Correction := ⟨[], "z".toList, "grammar", "", ⟨0, 0⟩, 0.7, "t5"⟩

/-- Qualifying example edit `'a' → 'b'`. -/
def ex_edit_1 : Correction := ⟨"a".toList, "b".toList, "grammar", "", ⟨1, 2⟩, 0.7, "t5"⟩

/-- Qualifying example edit `'c' → 'd'`. -/
def ex_edit_2 : Correction := ⟨"c".toList, "d".toList, "grammar", "", ⟨3, 4⟩, 0.7, "t5"⟩

/-- Qualifying example edit `'e' → 'f'`. -/
def ex_edit_3 : Correction := ⟨"e".toList, "f".toList, "grammar", "", ⟨5, 6⟩, 0.7, "t5"⟩

/-! ### C2 — the "He go home" scenario -/

/-- C2 counterexample: in the scenario `original_text = "He go home"`,
`model_rewrite = "He goes home"`, the single token-diff candidate does
not carry span `[2, 4)` (its span is `[3, 5)`, the actual position of
`"go"` in the original text). -/
theorem c2_span_counterexample :
    ¬ ((find_text_differences "He go home".toList "He goes home".toList).map
        (fun d => (d.position.start, d.position.stop)) = [(2, 4)]) := by
  decide

/-- C2 (amended): for `original_text = "He go home"`, `model_rewrite =
"He goes home"` and empty rule edits, the token diff detects exactly one
difference at token index 1 (`go` → `goes`) with span `[3, 5)` into the
original text; the merged list contains exactly one generative-model edit
with confidence `0.7`; and the corrected text is `"He goes home"`. -/
theorem c2_concrete_scenario :
    find_text_differences "He go home".toList "He goes home".toList =
      [⟨"go".toList, "goes".toList, ⟨3, 5⟩⟩] ∧
    merge_corrections "He go home".toList "He goes home".toList [] =
      [⟨"go".toList, "goes".toList, "grammar",
        "Grammar improvement suggested by AI model", ⟨3, 5⟩, 0.7, "t5"⟩] ∧
    apply_corrections "He go home".toList
        (merge_corrections "He go home".toList "He goes home".toList []) =
      "He goes home".toList :=
  ⟨rfl, rfl, rfl⟩

/-! ### C5 — the rule-checker confidence heuristic -/

/-- C5: the confidence of a rule-checker match equals the claimed formula:
the category-dependent base (`0.8` default, `0.9` for GRAMMAR, `0.95` for
TYPOS, `0.6` for STYLE), plus `0.1` when there is exactly one suggested
replacement, minus `0.1` when there are more than three, clamped to
`[0.1, 1.0]`. -/
theorem c5_match_confidence_formula (m : Match) :
    calculate_match_confidence m =
      min 1 (max (1/10)
        ((if m.category = "GRAMMAR" then (9 : ℚ)/10
          else if m.category = "TYPOS" then 19/20
          else if m.category = "STYLE" then 3/5
          else 4/5) +
         (if m.replacements.length = 1 then 1/10
          else if m.replacements.length > 3 then -(1/10)
          else 0))) := by
  unfold calculate_match_confidence
  by_cases h0 : m.replacements.isEmpty
  · have hlen : m.replacements.length = 0 := by
      simpa [List.isEmpty_iff] using h0
    simp only [h0, if_true, hlen]
    norm_num
  · simp only [h0, if_false, Bool.false_eq_true]
    split_ifs <;> norm_num

/-! ### C7 — the overall confidence score -/

/-- C7: the overall confidence score is `1.0` on an empty merged list and
otherwise the arithmetic mean of the edits' confidences; in particular
confidences `0.8` and `0.6` average to `0.7`. -/
theorem c7_confidence_score_mean :
    (∀ corrections : List Correction,
      calculate_confidence_score corrections =
        if corrections.length = 0 then 1
        else ((corrections.map fun c => c.confidence).sum) / corrections.length) ∧
    calculate_confidence_score [score_edit_a, score_edit_b] = 7/10 := by
  constructor
  · intro corrections
    cases corrections with
    | nil => norm_num [calculate_confidence_score]
    | cons c cs => simp [calculate_confidence_score]
  · norm_num [calculate_confidence_score, score_edit_a, score_edit_b]

/-! ### C3 — out-of-bounds rule-checker matches -/

/-- C3 counterexample: the match `oob_match` has `offset + errorLength = 6`,
outside the bounds of the three-character text `"abc"`, yet it is not
dropped: it contributes an edit, and applying that edit changes the text. -/
theorem c3_oob_counterexample :
    correct_with_languagetool "abc".toList [oob_match] ≠ [] ∧
    apply_corrections "abc".toList
        (correct_with_languagetool "abc".toList [oob_match]) = "aX".toList := by
  exact ⟨by decide, by decide⟩

/-- C3 (amended): no rule-checker match is ever dropped — the component
produces exactly one edit per match; a match whose `offset + errorLength`
exceeds the text length yields an edit whose `original` is the clamped
slice `text[offset:]`-style substring, and applying it splices with
clamping semantics, producing `text[:offset] + replacement` without
reading out of bounds. -/
theorem c3_oob_not_dropped :
    (∀ (text : List Char) (ms : List Match),
      (correct_with_languagetool text ms).length = ms.length) ∧
    (∀ (text : List Char) (m : Match), text.length < m.offset + m.errorLength →
      apply_corrections text (correct_with_languagetool text [m]) =
        text.take m.offset ++ m.replacements.headD []) := by
  constructor
  · intro text ms
    simp [correct_with_languagetool]
  · intro text m h
    have hdrop : text.drop (m.offset + m.errorLength) = [] :=
      List.drop_eq_nil_iff.mpr (le_of_lt h)
    simp [apply_corrections, correct_with_languagetool, sort_desc_by_start,
      List.insertionSort, splice, match_to_correction, hdrop]

/-- C3 witness: the amended statement applied to the concrete text `"abc"`
and the out-of-bounds match `oob_match`. -/
theorem c3_oob_witness :
    ("abc".toList).length < oob_match.offset + oob_match.errorLength ∧
    apply_corrections "abc".toList
        (correct_with_languagetool "abc".toList [oob_match]) =
      ("abc".toList).take oob_match.offset ++ oob_match.replacements.headD [] :=
  ⟨by decide, c3_oob_not_dropped.2 "abc".toList oob_match (by decide)⟩

/-! ### C6 — correction examples -/

/-- Formalization of C6 as stated by the spec: the examples are the first
three edits of the whole merged list whose original differs from their
corrected, each formatted. -/
def spec_examples_c6 (corrections : List Correction) : List (List Char) :=
  ((corrections.filter fun c => c.original != c.corrected).take 3).map format_example

/-- C6 counterexample: with a first edit whose original (empty) differs
from its corrected and three later qualifying edits, the code returns only
two examples (it never looks past `corrections[:3]` and also requires a
non-empty original), while the claimed rule returns three. -/
theorem c6_examples_counterexample :
    generate_correction_examples [ex_edit_0, ex_edit_1, ex_edit_2, ex_edit_3] ≠
      spec_examples_c6 [ex_edit_0, ex_edit_1, ex_edit_2, ex_edit_3] := by
  decide

/-- C6 (amended): the examples are drawn from the first three edits of the
merged list only — each of those whose original and corrected are both
non-empty and differ is formatted as `'<original>' → '<corrected>'`; a
skipped edit is not replaced by a later qualifying edit. -/
theorem c6_examples_from_head (corrections : List Correction) :
    generate_correction_examples corrections =
      ((corrections.take 3).filter example_ok).map format_example := by
  unfold generate_correction_examples
  generalize corrections.take 3 = l
  induction l using List.reverseRecOn with
  | nil => rfl
  | append_singleton xs x ih =>
    by_cases h : example_ok x <;>
      simp [List.foldl_append, List.filter_append, ih, h]

/-! ### C4 — grammar-rule extraction -/

/-- Membership in the insertion-ordered-set `add`. -/
theorem add_unique_mem (acc : List String) (r s : String) :
    s ∈ add_unique acc r ↔ s ∈ acc ∨ s = r := by
  unfold add_unique
  split_ifs with h
  · constructor
    · exact Or.inl
    · rintro (hs | rfl)
      · exact hs
      · exact h
  · simp

/-- Membership after one `extract_step`. -/
theorem extract_step_mem (acc : List String) (c : Correction) (s : String) :
    s ∈ extract_step acc c ↔
      s ∈ acc ∨ grammar_rules c.error_type = some s ∨
        (c.rule_explanation = s ∧ s ≠ "" ∧ s.length < 100) := by
  unfold extract_step
  rcases hg : grammar_rules c.error_type with _ | r <;> split_ifs with hcond
  · rw [add_unique_mem]
    constructor
    · rintro (hs | rfl)
      · exact Or.inl hs
      · exact Or.inr (Or.inr ⟨rfl, hcond⟩)
    · rintro (hs | hsome | ⟨rfl, _⟩)
      · exact Or.inl hs
      · exact absurd hsome (by simp)
      · exact Or.inr rfl
  · constructor
    · exact Or.inl
    · rintro (hs | hsome | ⟨rfl, hcond2⟩)
      · exact hs
      · exact absurd hsome (by simp)
      · exact absurd hcond2 hcond
  · rw [add_unique_mem, add_unique_mem]
    constructor
    · rintro ((hs | rfl) | rfl)
      · exact Or.inl hs
      · exact Or.inr (Or.inl rfl)
      · exact Or.inr (Or.inr ⟨rfl, hcond⟩)
    · rintro (hs | hsome | ⟨rfl, _⟩)
      · exact Or.inl (Or.inl hs)
      · exact Or.inl (Or.inr (Option.some_inj.mp hsome).symm)
      · exact Or.inr rfl
  · rw [add_unique_mem]
    constructor
    · rintro (hs | rfl)
      · exact Or.inl hs
      · exact Or.inr (Or.inl rfl)
    · rintro (hs | hsome | ⟨rfl, hcond2⟩)
      · exact Or.inl hs
      · exact Or.inr (Option.some_inj.mp hsome).symm
      · exact absurd hcond2 hcond

/-- Membership in the `_extract_grammar_rules` fold, generalized over the
accumulator. -/
theorem extract_fold_mem (corrections : List Correction) :
    ∀ (acc : List String) (s : String),
      s ∈ corrections.foldl extract_step acc ↔
        s ∈ acc ∨ ∃ c ∈ corrections,
          grammar_rules c.error_type = some s ∨
            (c.rule_explanation = s ∧ s ≠ "" ∧ s.length < 100) := by
  induction corrections with
  | nil => simp
  | cons c rest ih =>
    intro acc s
    rw [List.foldl_cons, ih, extract_step_mem]
    simp only [List.mem_cons]
    constructor
    · rintro ((hs | h1 | h2) | ⟨c', hc', h'⟩)
      · exact Or.inl hs
      · exact Or.inr ⟨c, Or.inl rfl, Or.inl h1⟩
      · exact Or.inr ⟨c, Or.inl rfl, Or.inr h2⟩
      · exact Or.inr ⟨c', Or.inr hc', h'⟩
    · rintro (hs | ⟨c', hc' | hc', h'⟩)
      · exact Or.inl (Or.inl hs)
      · subst hc'
        rcases h' with h1 | h2
        · exact Or.inl (Or.inr (Or.inl h1))
        · exact Or.inl (Or.inr (Or.inr h2))
      · exact Or.inr ⟨c', hc', h'⟩

/-- The single generative-model edit of the "He go home" scenario, whose
fixed `rule_explanation` is 41 characters long. -/
def t5_edit : Correction :=
  ⟨"go".toList, "goes".toList, "grammar",
    "Grammar improvement suggested by AI model", ⟨3, 5⟩, 0.7, "t5"⟩

/-- Formalization of C4 as stated: the output consists exactly of the
static table descriptions of the error types present plus the
rule-checker-supplied messages under 100 characters, and nothing else. -/
def spec_grammar_rules_c4 (corrections : List Correction) : Prop :=
  ∀ s, s ∈ extract_grammar_rules corrections ↔
    (∃ c ∈ corrections, grammar_rules c.error_type = some s) ∨
    (∃ c ∈ corrections, c.source = "languagetool" ∧ c.rule_explanation = s ∧
      s.length < 100)

/-- C4 counterexample: on a merged list holding one generative-model edit,
the output contains the fixed string `"Grammar improvement suggested by AI
model"`, which is neither a static table description (the edit's
`error_type` `"grammar"` is unmapped) nor a rule-checker-supplied
message. -/
theorem c4_counterexample : ¬ spec_grammar_rules_c4 [t5_edit] := by
  intro h
  have hmem : "Grammar improvement suggested by AI model" ∈
      extract_grammar_rules [t5_edit] := by decide
  rcases (h _).mp hmem with ⟨c, hc, hsome⟩ | ⟨c, hc, hsrc, _, _⟩
  · rw [List.mem_singleton] at hc
    subst hc
    exact absurd hsome (by decide)
  · rw [List.mem_singleton] at hc
    subst hc
    exact absurd hsrc (by decide)

/-- C4 (amended): a string is in the grammar-rules output iff it is the
static table description of some present edit's `error_type`, or it is the
non-empty, under-100-character `rule_explanation` of some present edit —
whatever that edit's source (in particular the fixed generative-model
explanation string also appears). -/
theorem c4_grammar_rules_membership (corrections : List Correction) (s : String) :
    s ∈ extract_grammar_rules corrections ↔
      (∃ c ∈ corrections, grammar_rules c.error_type = some s) ∨
      (∃ c ∈ corrections, c.rule_explanation = s ∧ s ≠ "" ∧ s.length < 100) := by
  unfold extract_grammar_rules
  rw [extract_fold_mem]
  simp only [List.not_mem_nil, false_or]
  constructor
  · rintro ⟨c, hc, h1 | h2⟩
    · exact Or.inl ⟨c, hc, h1⟩
    · exact Or.inr ⟨c, hc, h2⟩
  · rintro (⟨c, hc, h1⟩ | ⟨c, hc, h2⟩)
    · exact ⟨c, hc, Or.inl h1⟩
    · exact ⟨c, hc, Or.inr h2⟩

/-! ### C1 and C9 — the merge invariant and preservation of rule edits -/

/-- Two corrections do not overlap: the negation of the overlap test of
`_has_overlapping_correction`, symmetric in its two arguments. -/
def no_overlap (a b : Correction) : Prop :=
  ¬(a.position.start < b.position.stop ∧ b.position.start < a.position.stop)

instance : DecidableRel no_overlap := fun a b => by
  unfold no_overlap
  infer_instance

/-- Reading of a failed overlap test. -/
theorem has_overlapping_eq_false (d : Diff) (acc : List Correction) :
    has_overlapping_correction d acc = false ↔
      ∀ e ∈ acc,
        ¬(d.position.start < e.position.stop ∧ d.position.stop > e.position.start) := by
  simp [has_overlapping_correction]

/-- One step of the T5 loop. -/
theorem merge_t5_loop_cons (acc : List Correction) (d : Diff) (ds : List Diff) :
    merge_t5_loop acc (d :: ds) =
      merge_t5_loop
        (if has_overlapping_correction d acc then acc
         else acc ++ [diff_to_correction d]) ds :=
  rfl

/-- The T5 loop only ever appends to its accumulator. -/
theorem merge_t5_loop_append (ds : List Diff) :
    ∀ acc : List Correction, ∃ r, merge_t5_loop acc ds = acc ++ r := by
  induction ds with
  | nil => exact fun acc => ⟨[], by simp [merge_t5_loop]⟩
  | cons d ds ih =>
    intro acc
    rw [merge_t5_loop_cons]
    cases hov : has_overlapping_correction d acc
    · rw [if_neg (by simp)]
      obtain ⟨r, hr⟩ := ih (acc ++ [diff_to_correction d])
      exact ⟨diff_to_correction d :: r, by rw [hr]; simp⟩
    · rw [if_pos rfl]
      exact ih acc

/-- The T5 loop preserves pairwise non-overlap of the accumulator: a
candidate is appended only when it overlaps no accepted correction. -/
theorem merge_t5_loop_pairwise (ds : List Diff) :
    ∀ acc : List Correction, acc.Pairwise no_overlap →
      (merge_t5_loop acc ds).Pairwise no_overlap := by
  induction ds with
  | nil => exact fun acc h => h
  | cons d ds ih =>
    intro acc h
    rw [merge_t5_loop_cons]
    cases hov : has_overlapping_correction d acc
    · rw [if_neg (by simp)]
      apply ih
      rw [List.pairwise_append]
      refine ⟨h, List.pairwise_singleton _ _, ?_⟩
      intro a ha b hb
      rw [List.mem_singleton] at hb
      subst hb
      have hno := (has_overlapping_eq_false d acc).mp hov a ha
      unfold no_overlap diff_to_correction
      dsimp only
      tauto
    · rw [if_pos rfl]
      exact ih acc h

/-- `sort_by_start` produces a list sorted by `position.start` ascending. -/
theorem sort_by_start_sorted (l : List Correction) :
    (sort_by_start l).Pairwise fun a b => a.position.start ≤ b.position.start := by
  letI : IsTotal Correction fun a b => a.position.start ≤ b.position.start :=
    ⟨fun a b => Nat.le_total _ _⟩
  letI : IsTrans Correction fun a b => a.position.start ≤ b.position.start :=
    ⟨fun _ _ _ hab hbc => le_trans hab hbc⟩
  exact List.sorted_insertionSort _ l

/-- `no_overlap` is symmetric. -/
theorem no_overlap_symm {a b : Correction} (h : no_overlap a b) : no_overlap b a := by
  unfold no_overlap at *
  tauto

/-- C1 counterexample: with two overlapping rule-checker edits (spans
`[0, 2)` and `[1, 3)`) and an unchanged model rewrite, the merged list
contains two overlapping edits — the merge never re-checks rule edits
against one another, so the claimed invariant fails for this input. -/
theorem c1_overlap_counterexample :
    ¬ (merge_corrections "abc".toList "abc".toList
        [⟨"ab".toList, "x".toList, "grammar", "", ⟨0, 2⟩, 0.8, "languagetool"⟩,
         ⟨"bc".toList, "y".toList, "grammar", "", ⟨1, 3⟩, 0.8, "languagetool"⟩]).Pairwise
      no_overlap := by
  decide

/-- C1 (amended): whenever the rule-checker edits are themselves pairwise
non-overlapping, the merged list contains no two edits with overlapping
spans, and is in any case sorted by span start ascending. -/
theorem c1_merge_invariant (original_text t5_corrected : List Char)
    (lt_corrections : List Correction)
    (h : lt_corrections.Pairwise no_overlap) :
    (merge_corrections original_text t5_corrected lt_corrections).Pairwise no_overlap ∧
    (merge_corrections original_text t5_corrected lt_corrections).Pairwise
      fun a b => a.position.start ≤ b.position.start := by
  refine ⟨?_, sort_by_start_sorted _⟩
  unfold merge_corrections sort_by_start
  refine (List.Perm.pairwise_iff (fun hab => no_overlap_symm hab)
    (List.perm_insertionSort _ _)).mpr ?_
  split_ifs with ht
  · exact merge_t5_loop_pairwise _ _ h
  · exact h

/-- C1 witness: the amended invariant at the "He go home" scenario with a
single (trivially non-overlapping) rule edit. -/
theorem c1_merge_invariant_witness :
    ([t5_edit].Pairwise no_overlap) ∧
    ((merge_corrections "He go home".toList "He goes home".toList
        [t5_edit]).Pairwise no_overlap ∧
     (merge_corrections "He go home".toList "He goes home".toList
        [t5_edit]).Pairwise fun a b => a.position.start ≤ b.position.start) :=
  ⟨by decide, c1_merge_invariant _ _ _ (by decide)⟩

/-- C9: the merged output contains every rule-checker edit unchanged, with
multiplicity — the merge step never drops, modifies or filters a
rule-checker edit; only model-rewrite candidates are discarded. -/
theorem c9_rule_edits_preserved (original_text t5_corrected : List Char)
    (lt_corrections : List Correction) :
    List.Subperm lt_corrections
      (merge_corrections original_text t5_corrected lt_corrections) := by
  unfold merge_corrections sort_by_start
  split_ifs with ht
  · obtain ⟨r, hr⟩ := merge_t5_loop_append
      (find_text_differences original_text t5_corrected) lt_corrections
    rw [hr]
    exact ((List.sublist_append_left _ _).subperm).trans
      (List.perm_insertionSort _ _).symm.subperm
  · exact (List.perm_insertionSort _ _).symm.subperm

/-! ### C10 — correctness of the token-diff spans under single spacing -/

/-- Splitting walks through a whitespace-free chunk accumulating it. -/
theorem words_aux_no_ws (w : List Char) :
    ∀ (cs acc : List Char), (∀ c ∈ w, c.isWhitespace = false) →
      words_aux (w ++ cs) acc = words_aux cs (w.reverse ++ acc) := by
  induction w with
  | nil => intro cs acc _; simp
  | cons c w ih =>
    intro cs acc h
    have hc : c.isWhitespace = false := h c (List.mem_cons_self c w)
    rw [List.cons_append, words_aux, hc]
    simp only [Bool.false_eq_true, if_false]
    rw [ih cs (c :: acc) fun x hx => h x (List.mem_cons_of_mem c hx)]
    simp [List.reverse_cons, List.append_assoc]

/-- `join_sep` on a list with a non-empty tail. -/
theorem join_sep_cons (sep w : List Char) (ws : List (List Char)) (h : ws ≠ []) :
    join_sep sep (w :: ws) = w ++ sep ++ join_sep sep ws := by
  cases ws with
  | nil => exact absurd rfl h
  | cons w2 ws2 => rfl

/-- Splitting is a left inverse of joining with a single space, for
non-empty whitespace-free tokens. -/
theorem str_split_join (toks : List (List Char))
    (h : ∀ w ∈ toks, w ≠ [] ∧ ∀ c ∈ w, c.isWhitespace = false) :
    str_split (join_sep [' '] toks) = toks := by
  induction toks with
  | nil => rfl
  | cons w ws ih =>
    obtain ⟨hw, hwchars⟩ := h w (List.mem_cons_self w ws)
    have hne : (w.reverse ++ []).isEmpty = false := by
      simp [List.isEmpty_iff, hw]
    cases hws : ws with
    | nil =>
      show str_split (join_sep [' '] [w]) = [w]
      have hjw : join_sep [' '] [w] = w ++ [] := by simp [join_sep]
      rw [str_split, hjw, words_aux_no_ws w [] [] hwchars, words_aux, hne]
      simp
    | cons w2 ws2 =>
      rw [← hws]
      have hwsne : ws ≠ [] := by rw [hws]; exact List.cons_ne_nil _ _
      rw [join_sep_cons [' '] w ws hwsne, List.append_assoc, str_split,
        words_aux_no_ws w ([' '] ++ join_sep [' '] ws) [] hwchars,
        List.singleton_append, words_aux]
      have hsp : (' ').isWhitespace = true := rfl
      rw [hsp, hne]
      simp only [if_true, Bool.false_eq_true, if_false, List.append_nil,
        List.reverse_reverse]
      exact congrArg (w :: ·) (ih fun x hx => h x (List.mem_cons_of_mem w hx))

/-- Dropping the computed span start from the joined text reaches the
suffix joined from the remaining tokens. -/
theorem join_sep_drop (toks : List (List Char)) :
    ∀ i : Nat, i < toks.length →
      (join_sep [' '] toks).drop
          ((join_sep [' '] (toks.take i)).length + (if 0 < i then 1 else 0)) =
        join_sep [' '] (toks.drop i) := by
  induction toks with
  | nil => intro i hi; simp at hi
  | cons w ws ih =>
    intro i hi
    cases i with
    | zero => simp [join_sep]
    | succ j =>
      have hj : j < ws.length := by simpa using hi
      have hwsne : ws ≠ [] := by
        intro hnil
        rw [hnil] at hj
        simp at hj
      rw [List.take_succ_cons, List.drop_succ_cons,
        join_sep_cons [' '] w ws hwsne, List.append_assoc,
        if_pos (Nat.succ_pos j)]
      cases j with
      | zero =>
        have hjw : join_sep [' '] [w] = w := rfl
        rw [List.take_zero, hjw, List.drop_zero]
        have h1 : w.length + 1 = w.length + 1 := rfl
        rw [List.drop_append 1, List.singleton_append, List.drop_succ_cons,
          List.drop_zero]
      | succ k =>
        have htne : ws.take (k + 1) ≠ [] := by
          cases hcs : ws with
          | nil => exact absurd hcs hwsne
          | cons a t => simp [hcs]
        rw [join_sep_cons [' '] w (ws.take (k + 1)) htne]
        have hlen :
            (w ++ [' '] ++ join_sep [' '] (ws.take (k + 1))).length + 1 =
              w.length + (((join_sep [' '] (ws.take (k + 1))).length + 1) + 1) := by
          simp [List.length_append]
          omega
        rw [hlen, List.drop_append, List.singleton_append, List.drop_succ_cons]
        have := ih (k + 1) hj
        rw [if_pos (Nat.succ_pos k)] at this
        exact this

/-- The single token-diff candidate of the "He go home" scenario. -/
def diff_go : Diff := ⟨"go".toList, "goes".toList, ⟨3, 5⟩⟩

/-- The tokens of `"He go home"`. -/
def toks_he_go_home : List (List Char) := ["He".toList, "go".toList, "home".toList]

/-- C10: when the original text is single-spaced (it is the join of
non-empty whitespace-free tokens by single spaces), every candidate of the
token diff satisfies `original_text[span.start : span.end] ==
edit.original` and `span.end - span.start == len(edit.original)`; without
that precondition the span can miss the flagged token, as on the
double-spaced text `"a  b"`. -/
theorem c10_token_diff_span_spec :
    (∀ (toks : List (List Char)) (rewrite_text : List Char),
        (∀ w ∈ toks, w ≠ [] ∧ ∀ c ∈ w, c.isWhitespace = false) →
        ∀ d ∈ find_text_differences (join_sep [' '] toks) rewrite_text,
          py_slice (join_sep [' '] toks) d.position.start d.position.stop = d.original ∧
          d.position.stop - d.position.start = d.original.length) ∧
    ¬ (∀ d ∈ find_text_differences "a  b".toList "a  c".toList,
        py_slice "a  b".toList d.position.start d.position.stop = d.original) := by
  constructor
  · intro toks rewrite_text h d hd
    simp only [find_text_differences, str_split_join toks h, List.mem_filterMap,
      List.mem_range] at hd
    obtain ⟨i, hi, hsome⟩ := hd
    have hitoks : i < toks.length := (lt_min_iff.mp hi).1
    by_cases hne : toks.getD i [] ≠ (str_split rewrite_text).getD i []
    · rw [if_pos hne] at hsome
      injection hsome with hX
      subst hX
      dsimp only
      refine ⟨?_, Nat.add_sub_cancel_left _ _⟩
      rw [py_slice, Nat.add_sub_cancel_left, join_sep_drop toks i hitoks,
        List.getD_eq_getElem toks [] hitoks, List.drop_eq_getElem_cons hitoks]
      cases hrest : toks.drop (i + 1) with
      | nil => exact List.take_length _
      | cons a t =>
        rw [join_sep_cons [' '] toks[i] (a :: t) (List.cons_ne_nil a t),
          List.append_assoc]
        exact List.take_left _ _
    · rw [if_neg hne] at hsome
      exact absurd hsome (by simp)
  · decide

/-- C10 witness: the span-correctness statement applied to the
single-spaced tokens of `"He go home"` against the rewrite
`"He goes home"`, at the concrete candidate `diff_go`. -/
theorem c10_token_diff_span_witness :
    (∀ w ∈ toks_he_go_home, w ≠ [] ∧ ∀ c ∈ w, c.isWhitespace = false) ∧
    (py_slice (join_sep [' '] toks_he_go_home) diff_go.position.start
        diff_go.position.stop = diff_go.original ∧
     diff_go.position.stop - diff_go.position.start = diff_go.original.length) :=
  ⟨by decide,
   c10_token_diff_span_spec.1 toks_he_go_home "He goes home".toList (by decide)
     diff_go (by decide)⟩

/-! ### C8 — round-trip of the splice operation -/

/-- Well-formedness of an ascending edit list against a text of length
`n`, with all spans at or after position `p`: each span is ordered and in
bounds, and each next span starts at or after the previous span's end
(sorted and non-overlapping). -/
def spans_ok (n : Nat) : Nat → List Correction → Prop
  | _, [] => True
  | p, c :: rest =>
    p ≤ c.position.start ∧ c.position.start ≤ c.position.stop ∧
      c.position.stop ≤ n ∧ spans_ok n c.position.stop rest

/-- Every edit's `original` is the substring of the text at its span. -/
def originals_ok (text : List Char) (corrections : List Correction) : Prop :=
  ∀ c ∈ corrections, py_slice text c.position.start c.position.stop = c.original

/-- Segment-by-segment description of the corrected text produced from an
ascending well-formed edit list: keep the text from the cursor `k` up to
each span start, emit the replacement, continue after the span end. -/
def render (text : List Char) : Nat → List Correction → List Char
  | k, [] => text.drop k
  | k, c :: rest =>
    (text.drop k).take (c.position.start - k) ++ c.corrected ++
      render text c.position.stop rest

/-- The inverse edits of C8: each edit's corrected string is replaced back
by its original string, at the spans re-derived in the corrected text.
`po` and `pc` are matching cursors into the original and the corrected
text. -/
def inv_corrections : Nat → Nat → List Correction → List Correction
  | _, _, [] => []
  | po, pc, c :: rest =>
    { original := c.corrected
      corrected := c.original
      error_type := c.error_type
      rule_explanation := c.rule_explanation
      position := ⟨pc + (c.position.start - po),
        pc + (c.position.start - po) + c.corrected.length⟩
      confidence := c.confidence
      source := c.source } ::
      inv_corrections c.position.stop
        (pc + (c.position.start - po) + c.corrected.length) rest

/-- Application of an ascending edit list by descending-span splicing: the
`foldr` applies the last (highest) edit first. -/
def apply_descending (corrections : List Correction) (text : List Char) : List Char :=
  corrections.foldr (fun c acc => splice acc c) text

/-- On a list with strictly increasing span starts, the descending sort of
`_apply_corrections` is exactly the reversal. -/
theorem sort_desc_of_strict (l : List Correction)
    (h : l.Chain' fun a b => a.position.start < b.position.start) :
    sort_desc_by_start l = l.reverse := by
  letI : IsTrans Correction fun a b => a.position.start < b.position.start :=
    ⟨fun _ _ _ hab hbc => Nat.lt_trans hab hbc⟩
  letI : IsTotal Correction fun a b : Correction =>
      b.position.start ≤ a.position.start :=
    ⟨fun a b => Nat.le_total _ _⟩
  letI : IsTrans Correction fun a b : Correction =>
      b.position.start ≤ a.position.start :=
    ⟨fun _ _ _ hab hbc => le_trans hbc hab⟩
  haveI : IsAntisymm Correction fun a b : Correction =>
      b.position.start < a.position.start :=
    ⟨fun a b h1 h2 => absurd (h1.trans h2) (lt_irrefl _)⟩
  have hpl : l.Pairwise fun a b => a.position.start < b.position.start :=
    List.chain'_iff_pairwise.mp h
  have hperm : (sort_desc_by_start l).Perm l.reverse :=
    (List.perm_insertionSort _ l).trans (List.reverse_perm l).symm
  have hle : (sort_desc_by_start l).Pairwise fun a b : Correction =>
      b.position.start ≤ a.position.start :=
    List.sorted_insertionSort _ l
  have hne : (sort_desc_by_start l).Pairwise fun a b : Correction =>
      a.position.start ≠ b.position.start := by
    refine (List.Perm.pairwise_iff (fun hxy => hxy.symm)
      ((List.perm_insertionSort _ l))).mpr ?_
    exact hpl.imp fun hab => Nat.ne_of_lt hab
  have hsorted : (sort_desc_by_start l).Pairwise fun a b : Correction =>
      b.position.start < a.position.start :=
    (hle.and hne).imp fun hab => lt_of_le_of_ne hab.1 hab.2.symm
  have hrev : (l.reverse).Pairwise fun a b : Correction =>
      b.position.start < a.position.start :=
    List.pairwise_reverse.mpr hpl
  exact List.eq_of_perm_of_sorted hperm hsorted hrev

/-- Applying an ascending well-formed edit list in descending order
produces the segment rendering: the text up to the cursor `k` is kept, the
rest is rendered segment by segment. -/
theorem apply_descending_eq_render (text : List Char) :
    ∀ (l : List Correction) (k : Nat), spans_ok text.length k l →
      apply_descending l text = text.take k ++ render text k l := by
  intro l
  induction l with
  | nil =>
    intro k _
    rw [apply_descending, List.foldr_nil, render, List.take_append_drop]
  | cons c rest ih =>
    intro k hk
    obtain ⟨hpk, hse, hsn, hrest⟩ := hk
    rw [apply_descending, List.foldr_cons]
    rw [show (rest.foldr (fun c acc => splice acc c) text) =
        apply_descending rest text from rfl]
    rw [ih c.position.stop hrest, splice]
    have h1 :
        (text.take c.position.stop ++
          render text c.position.stop rest).take c.position.start =
          text.take c.position.start := by
      rw [List.take_append_of_le_length, List.take_take,
        min_eq_left hse]
      rw [List.length_take]
      exact le_min hse (hse.trans hsn)
    have h2 :
        (text.take c.position.stop ++
          render text c.position.stop rest).drop c.position.stop =
          render text c.position.stop rest := by
      apply List.drop_left'
      rw [List.length_take]
      exact min_eq_left hsn
    have h3 : text.take c.position.start =
        text.take k ++ (text.drop k).take (c.position.start - k) := by
      conv_lhs => rw [← Nat.add_sub_cancel' hpk]
      rw [List.take_add]
    rw [h1, h2, h3, render]
    simp [List.append_assoc]

/-- `_apply_corrections` on an ascending well-formed edit list with
strictly increasing span starts equals the segment rendering. -/
theorem apply_corrections_eq_render (text : List Char) (l : List Correction)
    (hs : spans_ok text.length 0 l)
    (hstrict : l.Chain' fun a b => a.position.start < b.position.start) :
    apply_corrections text l = render text 0 l := by
  cases l with
  | nil => simp [apply_corrections, render]
  | cons c rest =>
    rw [apply_corrections, if_neg (by simp), sort_desc_of_strict _ hstrict,
      List.foldl_reverse]
    have := apply_descending_eq_render text (c :: rest) 0 hs
    rw [apply_descending] at this
    rw [this, List.take_zero, List.nil_append]

/-- The gap segment kept before an edit has exactly the gap's length. -/
theorem gap_length (text : List Char) (po s : Nat) (_hpo : po ≤ s)
    (hs : s ≤ text.length) :
    ((text.drop po).take (s - po)).length = s - po := by
  rw [List.length_take, List.length_drop]
  exact min_eq_left (Nat.sub_le_sub_right hs po)

/-- The re-derived inverse spans are well-formed against the corrected
text. -/
theorem spans_ok_inv (text : List Char) :
    ∀ (l : List Correction) (po pc : Nat) (ctext : List Char),
      ctext.drop pc = render text po l →
      spans_ok text.length po l →
      pc ≤ ctext.length →
      spans_ok ctext.length pc (inv_corrections po pc l) := by
  intro l
  induction l with
  | nil =>
    intro po pc ctext _ _ _
    rw [inv_corrections]
    trivial
  | cons c rest ih =>
    intro po pc ctext hdrop hsp hpc
    obtain ⟨hpo, hse, hsn, hrest⟩ := hsp
    have hA : ((text.drop po).take (c.position.start - po)).length =
        c.position.start - po :=
      gap_length text po c.position.start hpo (hse.trans hsn)
    have hlen : (ctext.drop pc).length = ctext.length - pc :=
      List.length_drop _ _
    rw [hdrop, render, List.length_append, List.length_append, hA] at hlen
    have hstop :
        pc + (c.position.start - po) + c.corrected.length ≤ ctext.length := by
      omega
    have hdrop' :
        ctext.drop (pc + (c.position.start - po) + c.corrected.length) =
          render text c.position.stop rest := by
      have hj : pc + (c.position.start - po) + c.corrected.length =
          pc + ((c.position.start - po) + c.corrected.length) := by omega
      rw [hj, ← List.drop_drop, hdrop, render]
      have hi : (c.position.start - po) + c.corrected.length =
          ((text.drop po).take (c.position.start - po)).length +
            c.corrected.length := by rw [hA]
      rw [List.append_assoc, hi, List.drop_append, List.drop_left]
    rw [inv_corrections]
    refine ⟨Nat.le_add_right _ _, Nat.le_add_right _ _, hstop, ?_⟩
    exact ih c.position.stop (pc + (c.position.start - po) + c.corrected.length)
      ctext hdrop' hrest hstop

/-- Rendering the inverse edits over the corrected text recovers the
original suffix. -/
theorem render_inv (text : List Char) :
    ∀ (l : List Correction) (po pc : Nat) (ctext : List Char),
      ctext.drop pc = render text po l →
      spans_ok text.length po l →
      originals_ok text l →
      render ctext pc (inv_corrections po pc l) = text.drop po := by
  intro l
  induction l with
  | nil =>
    intro po pc ctext hdrop _ _
    rw [inv_corrections, render, hdrop, render]
  | cons c rest ih =>
    intro po pc ctext hdrop hsp horig
    obtain ⟨hpo, hse, hsn, hrest⟩ := hsp
    have hA : ((text.drop po).take (c.position.start - po)).length =
        c.position.start - po :=
      gap_length text po c.position.start hpo (hse.trans hsn)
    have hdrop' :
        ctext.drop (pc + (c.position.start - po) + c.corrected.length) =
          render text c.position.stop rest := by
      have hj : pc + (c.position.start - po) + c.corrected.length =
          pc + ((c.position.start - po) + c.corrected.length) := by omega
      rw [hj, ← List.drop_drop, hdrop, render]
      have hi : (c.position.start - po) + c.corrected.length =
          ((text.drop po).take (c.position.start - po)).length +
            c.corrected.length := by rw [hA]
      rw [List.append_assoc, hi, List.drop_append, List.drop_left]
    have hco : py_slice text c.position.start c.position.stop = c.original :=
      horig c (List.mem_cons_self c rest)
    have hsplit : text.drop c.position.start =
        c.original ++ text.drop c.position.stop := by
      conv_lhs => rw [← List.take_append_drop (c.position.stop - c.position.start)
        (text.drop c.position.start)]
      rw [List.drop_drop, Nat.add_sub_cancel' hse]
      rw [py_slice] at hco
      rw [hco]
    rw [inv_corrections, render]
    dsimp only
    rw [Nat.add_sub_cancel_left, hdrop, render]
    have htake :
        (((text.drop po).take (c.position.start - po) ++ c.corrected ++
            render text c.position.stop rest).take (c.position.start - po)) =
          (text.drop po).take (c.position.start - po) := by
      rw [List.append_assoc, List.take_append_of_le_length (le_of_eq hA.symm),
        List.take_take, min_self]
    rw [htake,
      ih c.position.stop (pc + (c.position.start - po) + c.corrected.length)
        ctext hdrop' hrest (fun x hx => horig x (List.mem_cons_of_mem c hx))]
    conv_rhs => rw [← List.take_append_drop (c.position.start - po) (text.drop po)]
    rw [List.drop_drop, Nat.add_sub_cancel' hpo, hsplit, List.append_assoc]

/-- C8: for every accepted edit list that is ascending with strictly
increasing span starts, non-overlapping and in bounds, and whose edits'
`original` fields match the spanned substrings, the splice operation
round-trips: applying the inverse edits (corrected replaced back by
original, at the spans re-derived in the corrected text) by
descending-span splicing recovers the original text exactly. -/
theorem c8_splice_roundtrip (text : List Char) (l : List Correction)
    (hs : spans_ok text.length 0 l)
    (ho : originals_ok text l)
    (hstrict : l.Chain' fun a b => a.position.start < b.position.start) :
    apply_descending (inv_corrections 0 0 l) (apply_corrections text l) = text := by
  have happ : apply_corrections text l = render text 0 l :=
    apply_corrections_eq_render text l hs hstrict
  have hdrop0 : (render text 0 l).drop 0 = render text 0 l := List.drop_zero _
  have hsp' : spans_ok (render text 0 l).length 0 (inv_corrections 0 0 l) :=
    spans_ok_inv text l 0 0 (render text 0 l) hdrop0 hs (Nat.zero_le _)
  rw [happ,
    apply_descending_eq_render (render text 0 l) (inv_corrections 0 0 l) 0 hsp',
    List.take_zero, List.nil_append,
    render_inv text l 0 0 (render text 0 l) hdrop0 hs ho, List.drop_zero]

/-- C8 witness: the round-trip applied to the text `"abc"` with the single
edit `'a' → 'b'` at span `[0, 1)`. -/
theorem c8_splice_roundtrip_witness :
    (spans_ok ("abc".toList).length 0 [score_edit_a] ∧
     originals_ok "abc".toList [score_edit_a] ∧
     [score_edit_a].Chain' fun a b => a.position.start < b.position.start) ∧
    apply_descending (inv_corrections 0 0 [score_edit_a])
        (apply_corrections "abc".toList [score_edit_a]) = "abc".toList :=
  ⟨⟨by simp [spans_ok, score_edit_a],
    by
      intro c hc
      rw [List.mem_singleton] at hc
      subst hc
      decide,
    by simp⟩,
   c8_splice_roundtrip "abc".toList [score_edit_a]
     (by simp [spans_ok, score_edit_a])
     (by
       intro c hc
       rw [List.mem_singleton] at hc
       subst hc
       decide)
     (by simp)⟩

end CorrectionAgent
